import Mathlib

/-!
Verification development for the lyrics-acquisition core of the lrcget
repository (`src-tauri/src/lyrics.rs`, `src-tauri/src/lrclib.rs`,
`src-tauri/src/lrclib/get_by_id.rs`).

The Rust code is shallowly embedded:
* the two sidecar files (`.txt` and `.lrc`) next to a track are modelled as
  a record of two `Option String` contents; `std::fs::write` / `remove_file`
  become pure state updates (file-system I/O errors are environment events,
  not program logic, and are not modelled);
* `f64` durations, tolerances and similarity scores are modelled as exact
  rationals (the embedded values are finite, so `partial_cmp` is the total
  order on `ℚ`);
* network calls are modelled by an environment that fixes the outcome of
  each search tier, and the orchestrator additionally returns the list of
  tier calls it issued;
* Rust `String`s inside the similarity scorer are modelled as `List Char`
  so that splitting on whitespace can be reasoned about directly.
-/

/-- The sidecar-file state for one track: the contents of the `.txt`
(plain-lyrics) and `.lrc` (synced-lyrics) files, `none` when absent.
Paths are derived from the track path by `build_txt_path` / `build_lrc_path`
in `lyrics.rs`; since both derivations share the base name, the state of a
single track is exactly this pair. -/
structure FS where
  txt : Option String
  lrc : Option String
deriving DecidableEq, Repr

/-- `lyrics.rs::save_plain_lyrics`: always remove the `.lrc` file; then
write the `.txt` file, or remove it when the text is empty. -/
def save_plain_lyrics (fs : FS) (lyrics : String) : FS :=
  let fs1 : FS := { fs with lrc := none }
  if lyrics = "" then { fs1 with txt := none }
  else { fs1 with txt := some lyrics }

/-- `lyrics.rs::save_synced_lyrics`: when the text is empty, remove the
`.lrc` file (the `.txt` file is left alone); otherwise remove the `.txt`
file and write the `.lrc` file. -/
def save_synced_lyrics (fs : FS) (lyrics : String) : FS :=
  if lyrics = "" then { fs with lrc := none }
  else { txt := none, lrc := some lyrics }

/-- `lyrics.rs::save_instrumental`: remove both sidecars, then write the
`.lrc` file with the literal instrumental marker. -/
def save_instrumental (fs : FS) : FS :=
  let fs1 : FS := { fs with lrc := none }
  let fs2 : FS := { fs1 with txt := none }
  { fs2 with lrc := some "[au: instrumental]" }

/-- `lrclib::get::Response` (the shared Lyrics Result): its four variants are
taken from their exhaustive uses in `lyrics.rs` and `commands/lyrics_cmd.rs`
(`SyncedLyrics(synced, plain)`, `UnsyncedLyrics(plain)`, `IsInstrumental`,
`None`). -/
inductive Response where
  | SyncedLyrics (synced plain : String)
  | UnsyncedLyrics (plain : String)
  | IsInstrumental
  | None
deriving DecidableEq, Repr

/-- Embedding of the Rust `matches!(lyrics, Response::None)` test. -/
def Response.isNone : Response → Bool
  | .None => true
  | _ => false

/-- `lyrics.rs::MatchSource`. -/
inductive MatchSource where
  | Exact
  | DurationFallback
  | FuzzyFallback
  | None
deriving DecidableEq, Repr

/-- `lyrics.rs::apply_lyrics_for_track`, file-system part: dispatch on the
Lyrics Result, update the sidecar state, and return the result unchanged.
(The optional tag embedding is best-effort, never touches the sidecars and
is not modelled.) -/
def apply_lyrics_for_track (fs : FS) (lyrics : Response) : FS × Response :=
  match lyrics with
  | .SyncedLyrics synced _plain => (save_synced_lyrics fs synced, lyrics)
  | .UnsyncedLyrics plain => (save_plain_lyrics fs plain, lyrics)
  | .IsInstrumental => (save_instrumental fs, lyrics)
  | .None => (fs, lyrics)

/-- `lyrics.rs::apply_string_lyrics_for_track`, file-system part:
`save_plain_lyrics` then `save_synced_lyrics` on the user-edited pair. -/
def apply_string_lyrics_for_track (fs : FS) (plain_lyrics synced_lyrics : String) : FS :=
  save_synced_lyrics (save_plain_lyrics fs plain_lyrics) synced_lyrics

/-- The three remote calls the orchestrator may issue, in order. -/
inductive TierCall where
  | exact
  | durationSearch
  | fuzzySearch
deriving DecidableEq, Repr

/-- The network environment of one resolution run: the outcome each tier's
remote call would produce (already reduced to a Lyrics Result by
`lrclib::get::request` resp. `search_*` + `pick_best_match`).  Errors are
identified by a numeral. -/
structure Env where
  exactResult : Except Nat Response
  durationResult : Except Nat Response
  fuzzyResult : Except Nat Response

/-- The tail of `lyrics.rs::download_lyrics_for_track` from the
`fuzzy_search_enabled` test on (lines 87–116): returns the extra tier calls
issued and the outcome. -/
def fuzzy_tier (env : Env) (fs : FS) (fuzzy_search_enabled : Bool) :
    List TierCall × Except Nat (FS × Response × MatchSource) :=
  if !fuzzy_search_enabled then
    let app := apply_lyrics_for_track fs Response.None
    ([], Except.ok (app.1, app.2, MatchSource.None))
  else
    match env.fuzzyResult with
    | .ok lyrics =>
      let source := if lyrics.isNone then MatchSource.None else MatchSource.FuzzyFallback
      let app := apply_lyrics_for_track fs lyrics
      ([TierCall.fuzzySearch], Except.ok (app.1, app.2, source))
    | .error _ =>
      let app := apply_lyrics_for_track fs Response.None
      ([TierCall.fuzzySearch], Except.ok (app.1, app.2, MatchSource.None))

/-- `lyrics.rs::download_lyrics_for_track`: the exact tier (propagating its
error with `?`), the tolerance-≤-0 short circuit, the duration-fallback tier
(whose `Err` falls through), and the fuzzy tier.  Returns the list of tier
calls issued together with the outcome. -/
def download_lyrics_for_track (env : Env) (fs : FS) (duration_tolerance : ℚ)
    (fuzzy_search_enabled : Bool) :
    List TierCall × Except Nat (FS × Response × MatchSource) :=
  match env.exactResult with
  | .error e => ([TierCall.exact], Except.error e)
  | .ok lyrics =>
    if !lyrics.isNone then
      let app := apply_lyrics_for_track fs lyrics
      ([TierCall.exact], Except.ok (app.1, app.2, MatchSource.Exact))
    else if duration_tolerance ≤ 0 then
      let app := apply_lyrics_for_track fs Response.None
      ([TierCall.exact], Except.ok (app.1, app.2, MatchSource.None))
    else
      match env.durationResult with
      | .ok fallback =>
        if !fallback.isNone then
          let app := apply_lyrics_for_track fs fallback
          ([TierCall.exact, TierCall.durationSearch],
            Except.ok (app.1, app.2, MatchSource.DurationFallback))
        else
          let rest := fuzzy_tier env fs fuzzy_search_enabled
          ([TierCall.exact, TierCall.durationSearch] ++ rest.1, rest.2)
      | .error _ =>
        let rest := fuzzy_tier env fs fuzzy_search_enabled
        ([TierCall.exact, TierCall.durationSearch] ++ rest.1, rest.2)

/-- `lrclib/search.rs::SearchItem` (durations as exact rationals). -/
structure SearchItem where
  id : Int
  name : Option String
  artist_name : Option String
  album_name : Option String
  duration : Option ℚ
  instrumental : Bool
  plain_lyrics : Option String
  synced_lyrics : Option String
deriving DecidableEq, Repr

/-- The completeness score closure inside `pick_best_match` (`lyrics.rs`
lines 181–186). -/
def score (item : SearchItem) : Int :=
  if item.synced_lyrics.isSome then 0
  else if item.plain_lyrics.isSome then 1
  else if item.instrumental then 2
  else 3

/-- Largest finite `f64`, `f64::MAX = (2 - 2⁻⁵²)·2¹⁰²³`, used by
`pick_best_match` as the duration distance of an item without a duration. -/
def f64MAX : ℚ := 2 ^ 1024 - 2 ^ 971

/-- `item.duration.map(|d| (d - duration).abs()).unwrap_or(f64::MAX)`
(`lyrics.rs` lines 191–192). -/
def distOr (duration : ℚ) (item : SearchItem) : ℚ :=
  (item.duration.map (fun d => |d - duration|)).getD f64MAX

/-- `i32::cmp` on the completeness scores. -/
def icmp (a b : Int) : Ordering :=
  if a < b then .lt else if a = b then .eq else .gt

/-- `f64::partial_cmp(..).unwrap_or(Equal)` on finite values is the total
order on `ℚ`. -/
def qcmp (a b : ℚ) : Ordering :=
  if a < b then .lt else if a = b then .eq else .gt

/-- The comparator passed to `min_by` in `pick_best_match` (`lyrics.rs`
lines 180–194): completeness score first, then absolute duration distance. -/
def cmpItems (duration : ℚ) (a b : SearchItem) : Ordering :=
  let score_cmp := icmp (score a) (score b)
  if score_cmp ≠ Ordering.eq then score_cmp
  else qcmp (distOr duration a) (distOr duration b)

/-- Rust `Iterator::min_by`: reduce keeping the earlier element unless the
later one is strictly smaller (ties resolve to the first-encountered
element). -/
def min_by (cmp : α → α → Ordering) : List α → Option α
  | [] => none
  | x :: xs => some (xs.foldl (fun acc y => if cmp acc y = .gt then y else acc) x)

/-- The duration filter closure inside `pick_best_match` (`lyrics.rs`
lines 175–179). -/
def duration_filter (duration duration_tolerance : ℚ) (item : SearchItem) : Bool :=
  (item.duration.map (fun d => decide (|d - duration| ≤ duration_tolerance))).getD false

/-- `lyrics.rs::pick_best_match`. -/
def pick_best_match (results : List SearchItem) (duration duration_tolerance : ℚ) :
    Option SearchItem :=
  min_by (cmpItems duration)
    (results.filter (duration_filter duration duration_tolerance))

/-- Strict lexicographic order on `(completeness score, duration distance)`. -/
def keyLt (duration : ℚ) (a b : SearchItem) : Prop :=
  score a < score b ∨ (score a = score b ∧ distOr duration a < distOr duration b)

/-- Lexicographic order on `(completeness score, duration distance)`. -/
def keyLe (duration : ℚ) (a b : SearchItem) : Prop :=
  score a < score b ∨ (score a = score b ∧ distOr duration a ≤ distOr duration b)

theorem keyLe_refl (duration : ℚ) (a : SearchItem) : keyLe duration a a :=
  Or.inr ⟨rfl, le_refl _⟩

theorem keyLe_of_keyLt {duration : ℚ} {a b : SearchItem} (h : keyLt duration a b) :
    keyLe duration a b := by
  rcases h with h | ⟨h1, h2⟩
  · exact Or.inl h
  · exact Or.inr ⟨h1, le_of_lt h2⟩

theorem keyLe_of_not_keyLt {duration : ℚ} {a b : SearchItem}
    (h : ¬ keyLt duration b a) : keyLe duration a b := by
  unfold keyLt at h
  push_neg at h
  rcases lt_trichotomy (score a) (score b) with hs | hs | hs
  · exact Or.inl hs
  · exact Or.inr ⟨hs, h.2 hs.symm⟩
  · exact absurd hs (not_lt.mpr h.1)

theorem keyLt_of_keyLt_of_keyLe {duration : ℚ} {a b c : SearchItem}
    (h1 : keyLt duration a b) (h2 : keyLe duration b c) : keyLt duration a c := by
  rcases h1 with h1 | ⟨h1e, h1d⟩ <;> rcases h2 with h2 | ⟨h2e, h2d⟩
  · exact Or.inl (lt_trans h1 h2)
  · exact Or.inl (h2e ▸ h1)
  · exact Or.inl (h1e ▸ h2)
  · exact Or.inr ⟨h1e.trans h2e, lt_of_lt_of_le h1d h2d⟩

theorem keyLe_trans {duration : ℚ} {a b c : SearchItem}
    (h1 : keyLe duration a b) (h2 : keyLe duration b c) : keyLe duration a c := by
  rcases h1 with h1 | ⟨h1e, h1d⟩ <;> rcases h2 with h2 | ⟨h2e, h2d⟩
  · exact Or.inl (lt_trans h1 h2)
  · exact Or.inl (h2e ▸ h1)
  · exact Or.inl (h1e ▸ h2)
  · exact Or.inr ⟨h1e.trans h2e, le_trans h1d h2d⟩

theorem icmp_eq_gt {a b : Int} : icmp a b = .gt ↔ b < a := by
  unfold icmp
  split_ifs with h1 h2 <;> simp <;> omega

theorem icmp_eq_eq {a b : Int} : icmp a b = .eq ↔ a = b := by
  unfold icmp
  split_ifs with h1 h2 <;> simp <;> omega

theorem qcmp_eq_gt {a b : ℚ} : qcmp a b = .gt ↔ b < a := by
  unfold qcmp
  rcases lt_trichotomy a b with h | h | h
  · simp [h, not_lt.mpr h.le]
  · simp [h, lt_irrefl]
  · simp [not_lt.mpr h.le, (ne_of_gt h), h]

/-- The comparator returns `gt` exactly when the second item is strictly
smaller in the lexicographic key order. -/
theorem cmpItems_gt_iff {duration : ℚ} {a b : SearchItem} :
    cmpItems duration a b = .gt ↔ keyLt duration b a := by
  simp only [cmpItems, keyLt]
  by_cases he : icmp (score a) (score b) = Ordering.eq
  · have hs : score a = score b := icmp_eq_eq.mp he
    simp only [he, ne_eq, not_true_eq_false, if_false, qcmp_eq_gt]
    constructor
    · intro hd
      exact Or.inr ⟨hs.symm, hd⟩
    · rintro (h | ⟨_, hd⟩)
      · exact absurd h (by omega)
      · exact hd
  · simp only [ne_eq, he, not_false_eq_true, if_true]
    constructor
    · intro hg
      exact Or.inl (icmp_eq_gt.mp hg)
    · rintro (h | ⟨h1, _⟩)
      · exact icmp_eq_gt.mpr h
      · exact absurd (icmp_eq_eq.mpr h1.symm) he

/-- The reduction step of `min_by (cmpItems duration)`. -/
def min_step (duration : ℚ) (acc y : SearchItem) : SearchItem :=
  if cmpItems duration acc y = .gt then y else acc

theorem min_by_cmpItems_cons (duration : ℚ) (x : SearchItem) (xs : List SearchItem) :
    min_by (cmpItems duration) (x :: xs) = some (xs.foldl (min_step duration) x) := rfl

theorem score_nonneg (item : SearchItem) : 0 ≤ score item := by
  unfold score
  split_ifs <;> norm_num

theorem synced_of_score_eq_zero {item : SearchItem} (h : score item = 0) :
    item.synced_lyrics.isSome := by
  unfold score at h
  split_ifs at h with h1 h2 h3
  · exact h1
  all_goals norm_num at h

theorem score_eq_zero_of_synced {item : SearchItem} (h : item.synced_lyrics.isSome) :
    score item = 0 := by
  unfold score
  rw [if_pos h]

/-- The accumulator of the `min_by` fold is a lexicographic minimum of the
initial accumulator and the traversed elements, and it is the
first-encountered minimum: either it is the initial accumulator, or it
occurs in the list strictly below every earlier element and the initial
accumulator. -/
theorem foldl_min_step_spec (duration : ℚ) (xs : List SearchItem) :
    ∀ acc r : SearchItem, xs.foldl (min_step duration) acc = r →
      keyLe duration r acc ∧
      (∀ y ∈ xs, keyLe duration r y) ∧
      (r = acc ∨
        ∃ l1 l2, xs = l1 ++ r :: l2 ∧ keyLt duration r acc ∧
          ∀ y ∈ l1, keyLt duration r y) := by
  induction xs with
  | nil =>
    intro acc r hr
    rw [List.foldl_nil] at hr
    subst hr
    exact ⟨keyLe_refl duration acc, by simp, Or.inl rfl⟩
  | cons y ys ih =>
    intro acc r hr
    by_cases hc : cmpItems duration acc y = .gt
    · have hya : keyLt duration y acc := cmpItems_gt_iff.mp hc
      have hr' : ys.foldl (min_step duration) y = r := by
        rw [← hr]
        simp [min_step, hc]
      obtain ⟨h1, h2, h3⟩ := ih y r hr'
      refine ⟨keyLe_trans h1 (keyLe_of_keyLt hya), ?_, ?_⟩
      · intro z hz
        rcases List.mem_cons.mp hz with rfl | hz
        · exact h1
        · exact h2 z hz
      · rcases h3 with h3 | ⟨l1, l2, heq, hlt, hall⟩
        · refine Or.inr ⟨[], ys, by simp [h3], ?_, by simp⟩
          rw [h3]; exact hya
        · refine Or.inr ⟨y :: l1, l2, by simp [heq],
            keyLt_of_keyLt_of_keyLe hlt (keyLe_of_keyLt hya), ?_⟩
          intro z hz
          rcases List.mem_cons.mp hz with rfl | hz
          · exact hlt
          · exact hall z hz
    · have hay : keyLe duration acc y :=
        keyLe_of_not_keyLt (fun h => hc (cmpItems_gt_iff.mpr h))
      have hr' : ys.foldl (min_step duration) acc = r := by
        rw [← hr]
        simp [min_step, hc]
      obtain ⟨h1, h2, h3⟩ := ih acc r hr'
      refine ⟨h1, ?_, ?_⟩
      · intro z hz
        rcases List.mem_cons.mp hz with rfl | hz
        · exact keyLe_trans h1 hay
        · exact h2 z hz
      · rcases h3 with h3 | ⟨l1, l2, heq, hlt, hall⟩
        · exact Or.inl h3
        · refine Or.inr ⟨y :: l1, l2, by simp [heq], hlt, ?_⟩
          intro z hz
          rcases List.mem_cons.mp hz with rfl | hz
          · exact keyLt_of_keyLt_of_keyLe hlt hay
          · exact hall z hz

/-- Whatever `min_by (cmpItems duration)` returns is an element of its input,
a lexicographic minimum, and the first-encountered minimum. -/
theorem min_by_spec {duration : ℚ} {l : List SearchItem} {r : SearchItem}
    (h : min_by (cmpItems duration) l = some r) :
    r ∈ l ∧ (∀ x ∈ l, keyLe duration r x) ∧
      ∃ l1 l2, l = l1 ++ r :: l2 ∧ ∀ x ∈ l1, keyLt duration r x := by
  match l with
  | [] => exact absurd h (by simp [min_by])
  | x :: xs =>
    rw [min_by_cmpItems_cons] at h
    have hr : xs.foldl (min_step duration) x = r := Option.some_injective _ h
    obtain ⟨h1, h2, h3⟩ := foldl_min_step_spec duration xs x r hr
    refine ⟨?_, ?_, ?_⟩
    · rcases h3 with h3 | ⟨l1, l2, heq, _, _⟩
      · rw [h3]; exact List.mem_cons_self x xs
      · rw [heq]
        exact List.mem_cons_of_mem x (List.mem_append_right l1 (List.mem_cons_self r l2))
    · intro z hz
      rcases List.mem_cons.mp hz with rfl | hz
      · exact h1
      · exact h2 z hz
    · rcases h3 with h3 | ⟨l1, l2, heq, hlt, hall⟩
      · exact ⟨[], xs, by rw [h3]; simp, by simp⟩
      · refine ⟨x :: l1, l2, by simp [heq], ?_⟩
        intro z hz
        rcases List.mem_cons.mp hz with rfl | hz
        · exact hlt
        · exact hall z hz

/-- The character filter in `lyrics.rs::normalize_text`:
`c.is_alphanumeric() || c.is_whitespace()`. -/
def isKept (c : Char) : Bool := c.isAlphanum || c.isWhitespace

/-- Helper for `split_whitespace`: scan the characters, accumulating the
current word in reverse. -/
def splitWhitespaceAux : List Char → List Char → List (List Char)
  | [], acc => if acc.isEmpty then [] else [acc.reverse]
  | c :: cs, acc =>
    if c.isWhitespace then
      if acc.isEmpty then splitWhitespaceAux cs []
      else acc.reverse :: splitWhitespaceAux cs []
    else splitWhitespaceAux cs (c :: acc)

/-- Rust `str::split_whitespace`: the maximal whitespace-free nonempty runs,
in order. -/
def split_whitespace (l : List Char) : List (List Char) := splitWhitespaceAux l []

/-- Rust `Vec::join(" ")` on words. -/
def joinSep : List (List Char) → List Char
  | [] => []
  | [w] => w
  | w :: ws => w ++ ' ' :: joinSep ws

/-- `lyrics.rs::normalize_text`: lowercase, keep only alphanumeric or
whitespace characters, split on whitespace and re-join with single spaces
(strings modelled as `List Char`). -/
def normalize_text (s : List Char) : List Char :=
  joinSep (split_whitespace ((s.map Char.toLower).filter isKept))

/-- `lyrics.rs::text_similarity`: Jaccard index of the whitespace-token sets
of the normalized inputs, with the empty-input special cases. -/
def text_similarity (a b : List Char) : ℚ :=
  let a_norm := normalize_text a
  let b_norm := normalize_text b
  if a_norm.isEmpty && b_norm.isEmpty then 1
  else if a_norm.isEmpty || b_norm.isEmpty then 0
  else
    let a_words : Finset (List Char) := (split_whitespace a_norm).toFinset
    let b_words : Finset (List Char) := (split_whitespace b_norm).toFinset
    let intersection := (a_words ∩ b_words).card
    let union := (a_words ∪ b_words).card
    if union = 0 then 0 else (intersection : ℚ) / (union : ℚ)

theorem splitWhitespaceAux_ne_nil_of_acc (l : List Char) :
    ∀ acc : List Char, acc ≠ [] → splitWhitespaceAux l acc ≠ [] := by
  induction l with
  | nil =>
    intro acc hacc
    simp [splitWhitespaceAux, List.isEmpty_iff, hacc]
  | cons c cs ih =>
    intro acc hacc
    by_cases hw : c.isWhitespace
    · simp [splitWhitespaceAux, hw, List.isEmpty_iff, hacc]
    · simpa [splitWhitespaceAux, hw] using ih (c :: acc) (by simp)

theorem splitWhitespaceAux_ne_nil_of_mem (l : List Char) :
    ∀ acc : List Char, (∃ c ∈ l, c.isWhitespace = false) →
      splitWhitespaceAux l acc ≠ [] := by
  induction l with
  | nil =>
    intro acc h
    obtain ⟨c, hc, _⟩ := h
    exact absurd hc (List.not_mem_nil c)
  | cons c cs ih =>
    intro acc h
    by_cases hw : c.isWhitespace
    · have hcs : ∃ c' ∈ cs, c'.isWhitespace = false := by
        obtain ⟨c', hc', hw'⟩ := h
        rcases List.mem_cons.mp hc' with rfl | hmem
        · rw [hw] at hw'; cases hw'
        · exact ⟨c', hmem, hw'⟩
      by_cases hacc : acc.isEmpty
      · simpa [splitWhitespaceAux, hw, hacc] using ih [] hcs
      · simp [splitWhitespaceAux, hw, hacc]
    · simpa [splitWhitespaceAux, hw] using
        splitWhitespaceAux_ne_nil_of_acc cs (c :: acc) (by simp)

theorem splitWhitespaceAux_words (l : List Char) :
    ∀ acc : List Char, (∀ c ∈ acc, c.isWhitespace = false) →
      ∀ w ∈ splitWhitespaceAux l acc,
        w ≠ [] ∧ ∀ c ∈ w, c.isWhitespace = false := by
  induction l with
  | nil =>
    intro acc hacc w hw
    by_cases he : acc.isEmpty
    · simp [splitWhitespaceAux, he] at hw
    · simp [splitWhitespaceAux, he] at hw
      subst hw
      refine ⟨by simpa [List.isEmpty_iff] using he, ?_⟩
      intro c hc
      exact hacc c (List.mem_reverse.mp hc)
  | cons c cs ih =>
    intro acc hacc w hw
    by_cases hws : c.isWhitespace
    · by_cases he : acc.isEmpty
      · rw [splitWhitespaceAux] at hw
        simp only [hws, if_true, he, if_true] at hw
        exact ih [] (by simp) w hw
      · rw [splitWhitespaceAux] at hw
        simp only [hws, if_true, he, if_false] at hw
        rcases List.mem_cons.mp hw with rfl | hw
        · refine ⟨by simpa [List.isEmpty_iff] using he, ?_⟩
          intro d hd
          exact hacc d (List.mem_reverse.mp hd)
        · exact ih [] (by simp) w hw
    · rw [splitWhitespaceAux] at hw
      simp only [hws, if_false] at hw
      refine ih (c :: acc) ?_ w hw
      intro d hd
      rcases List.mem_cons.mp hd with rfl | hd
      · simpa using hws
      · exact hacc d hd

theorem mem_joinSep_head {w : List Char} {ws : List (List Char)} {c : Char}
    (hc : c ∈ w) : c ∈ joinSep (w :: ws) := by
  cases ws with
  | nil => simpa [joinSep] using hc
  | cons w' ws' => simp [joinSep, hc]

/-- A nonempty normalized string contains a non-whitespace character. -/
theorem normalize_text_has_non_ws {s : List Char} (h : normalize_text s ≠ []) :
    ∃ c ∈ normalize_text s, c.isWhitespace = false := by
  unfold normalize_text at *
  cases hws : split_whitespace ((s.map Char.toLower).filter isKept) with
  | nil => rw [hws] at h; simp [joinSep] at h
  | cons w ws =>
    have hword := splitWhitespaceAux_words ((s.map Char.toLower).filter isKept) []
      (by simp) w (by rw [show splitWhitespaceAux ((s.map Char.toLower).filter isKept) [] =
        split_whitespace ((s.map Char.toLower).filter isKept) from rfl, hws]; exact List.mem_cons_self w ws)
    obtain ⟨hne, hall⟩ := hword
    cases hwcase : w with
    | nil => exact absurd hwcase hne
    | cons c cr =>
      refine ⟨c, ?_, ?_⟩
      · exact mem_joinSep_head (List.mem_cons_self c cr)
      · exact hall c (by rw [hwcase]; exact List.mem_cons_self c cr)

/-- Splitting a nonempty normalized string on whitespace yields at least one
token. -/
theorem split_whitespace_normalize_ne_nil {s : List Char}
    (h : normalize_text s ≠ []) : split_whitespace (normalize_text s) ≠ [] :=
  splitWhitespaceAux_ne_nil_of_mem (normalize_text s) []
    (normalize_text_has_non_ws h)

/-- `lrclib.rs::MAX_RETRIES`. -/
def MAX_RETRIES : Nat := 3

/-- `lrclib.rs::RETRY_DELAY_MS`. -/
def RETRY_DELAY_MS : Nat := 1000

/-- The outcome of a single `HTTP_CLIENT.get(..).send().await`: either a
response (identified by a numeral) or an error, with
`e.is_connect() || e.is_timeout() || e.is_request()` as the `transient`
flag. -/
inductive Attempt where
  | success (rid : Nat)
  | failure (transient : Bool) (eid : Nat)
deriving DecidableEq, Repr

/-- What one run of `get_with_retry` produced: the returned value or error,
how many send attempts were made, and the backoff delays slept (ms). -/
structure RetryOutcome where
  result : Except Nat Nat
  attemptsMade : Nat
  sleeps : List Nat
deriving Repr

theorem RetryOutcome.ext_iff {a b : RetryOutcome} :
    a = b ↔ a.result = b.result ∧ a.attemptsMade = b.attemptsMade ∧ a.sleeps = b.sleeps := by
  constructor
  · rintro rfl; exact ⟨rfl, rfl, rfl⟩
  · obtain ⟨r1, n1, s1⟩ := a
    obtain ⟨r2, n2, s2⟩ := b
    rintro ⟨h1, h2, h3⟩
    simp_all

/-- The loop of `lrclib.rs::get_with_retry`, indexed by the remaining loop
iterations (`MAX_RETRIES - attempt`), the current 0-based attempt index, the
`last_err` variable and the delays slept so far.  A transient failure stores
the error and, when `attempt + 1 < MAX_RETRIES`, sleeps
`RETRY_DELAY_MS * (attempt + 1)`; a non-transient failure returns
immediately; an exhausted loop returns `last_err`. -/
def runRetry (attempts : Nat → Attempt) :
    Nat → Nat → Option Nat → List Nat → RetryOutcome
  | 0, i, lastErr, sleeps => ⟨Except.error (lastErr.getD 0), i, sleeps⟩
  | remaining + 1, i, _lastErr, sleeps =>
    match attempts i with
    | .success r => ⟨Except.ok r, i + 1, sleeps⟩
    | .failure true eid =>
      if remaining > 0 then
        runRetry attempts remaining (i + 1) (some eid)
          (sleeps ++ [RETRY_DELAY_MS * (i + 1)])
      else
        runRetry attempts remaining (i + 1) (some eid) sleeps
    | .failure false eid => ⟨Except.error eid, i + 1, sleeps⟩

/-- `lrclib.rs::get_with_retry`, with the network modelled as the sequence
of outcomes each send attempt would produce. -/
def get_with_retry (attempts : Nat → Attempt) : RetryOutcome :=
  runRetry attempts MAX_RETRIES 0 none []

/-- `lrclib.rs::ResponseError` (the structured remote error body). -/
structure ResponseError where
  status_code : Option Nat
  error : String
  message : String
deriving DecidableEq, Repr

/-- `lrclib/get.rs::RawResponse` is declared in a file absent from the
sources; its three fields are fixed by their uses in
`lrclib/get_by_id.rs::request_raw` and by the spec's body shape
`{syncedLyrics?, plainLyrics?, instrumental}`. -/
structure RawResponse where
  synced_lyrics : Option String
  plain_lyrics : Option String
  instrumental : Bool
deriving DecidableEq, Repr

/-- The outcome of one remote-client operation after a successful HTTP
exchange: a parsed value, a remote-rejection error, or a body that failed
to parse (the `?` on `res.json()`). -/
inductive ApiOutcome (α : Type) where
  | ok (a : α)
  | respErr (e : ResponseError)
  | parseFail
deriving DecidableEq, Repr

/-- Modelled from the spec: `lrclib/get.rs` is absent from the sources.  The
spec (§4.4) says get-by-fields/get-by-id normalize the parsed body into the
shared Lyrics Result variant, with empty synced+plain+non-instrumental ⇒
`None`, and the data model gives the synced variant a derived plain text
(`Synced(text, plainTextDerived)`); the derivation itself is unspecified
there, so this model keeps the synced text as the derived plain text.  No
claim depends on this normalization. -/
def Response.from_raw_response (r : RawResponse) : Response :=
  match r.synced_lyrics with
  | some synced => .SyncedLyrics synced (r.plain_lyrics.getD synced)
  | none =>
    match r.plain_lyrics with
    | some plain => .UnsyncedLyrics plain
    | none => if r.instrumental then .IsInstrumental else .None

namespace GetById

/-- `lrclib/get_by_id.rs::request_raw`, given the HTTP status of the
(already retried) response and the two possible body parses. -/
def request_raw (status : Nat) (rawBody : Except Unit RawResponse)
    (errBody : Except Unit ResponseError) : ApiOutcome RawResponse :=
  if status = 200 then
    match rawBody with
    | .error _ => .parseFail
    | .ok r =>
      if r.synced_lyrics.isSome || r.plain_lyrics.isSome || r.instrumental then
        .ok r
      else
        .respErr ⟨some 404, "NotFound", "There is no lyrics for this track"⟩
  else if status = 404 then
    .respErr ⟨some 404, "NotFound", "There is no lyrics for this track"⟩
  else if status = 400 ∨ status = 503 ∨ status = 500 then
    match errBody with
    | .error _ => .parseFail
    | .ok e => .respErr e
  else
    .respErr ⟨none, "UnknownError", "Unknown error happened"⟩

/-- `lrclib/get_by_id.rs::request`, the normalizing variant. -/
def request (status : Nat) (rawBody : Except Unit RawResponse)
    (errBody : Except Unit ResponseError) : ApiOutcome Response :=
  if status = 200 then
    match rawBody with
    | .error _ => .parseFail
    | .ok r => .ok (Response.from_raw_response r)
  else if status = 404 then
    .ok Response.None
  else if status = 400 ∨ status = 503 ∨ status = 500 then
    match errBody with
    | .error _ => .parseFail
    | .ok e => .respErr e
  else
    .respErr ⟨none, "UnknownError", "Unknown error happened"⟩

end GetById

theorem Response.isNone_iff {l : Response} : l.isNone = true ↔ l = .None := by
  cases l <;> simp [Response.isNone]

theorem apply_lyrics_snd (fs : FS) (lyrics : Response) :
    (apply_lyrics_for_track fs lyrics).2 = lyrics := by
  cases lyrics <;> rfl

theorem fuzzy_tier_none_iff (env : Env) (fs : FS) (fe : Bool)
    {fs' : FS} {r : Response} {src : MatchSource}
    (h : (fuzzy_tier env fs fe).2 = .ok (fs', r, src)) :
    (src = MatchSource.None ↔ r = Response.None) := by
  unfold fuzzy_tier at h
  by_cases hfe : fe
  · cases hfu : env.fuzzyResult with
    | ok l =>
      rw [hfu] at h
      simp only [hfe, Bool.not_true, Bool.false_eq_true, if_false,
        apply_lyrics_snd, Except.ok.injEq, Prod.mk.injEq] at h
      obtain ⟨_, hr, hsrc⟩ := h
      subst hr
      by_cases hl : l.isNone
      · have := Response.isNone_iff.mp hl
        subst this
        rw [← hsrc]
        simp [Response.isNone]
      · have hlne : l ≠ .None := fun he => hl (Response.isNone_iff.mpr he)
        rw [← hsrc]
        simp only [hl, Bool.false_eq_true, if_false]
        constructor
        · intro hc; cases hc
        · intro hc; exact absurd hc hlne
    | error e =>
      rw [hfu] at h
      simp only [hfe, Bool.not_true, Bool.false_eq_true, if_false,
        apply_lyrics_snd, Except.ok.injEq, Prod.mk.injEq] at h
      obtain ⟨_, hr, hsrc⟩ := h
      rw [← hr, ← hsrc]
      simp
  · simp only [Bool.not_eq_true] at hfe
    subst hfe
    simp only [Bool.not_false, if_true, apply_lyrics_snd,
      Except.ok.injEq, Prod.mk.injEq] at h
    obtain ⟨_, hr, hsrc⟩ := h
    rw [← hr, ← hsrc]
    simp

/-- C1 (counterexample): the synced write does NOT delete a present `.txt`
sidecar when the synced text is empty — `save_synced_lyrics` with empty text
only removes the `.lrc` file, leaving `.txt` = `"hello"` in place. -/
theorem c1_synced_write_counterexample :
    (save_synced_lyrics ⟨some "hello", none⟩ "").txt = some "hello" := rfl

/-- C1 (amended): the synced write deletes the `.txt` sidecar and writes the
`.lrc` sidecar when the synced text is non-empty; when the text is empty it
only deletes the `.lrc` sidecar, leaving any `.txt` sidecar in place.
Consequently the `.txt` and `.lrc` sidecars are never both present after any
sidecar write operation (plain, synced, instrumental, or the clear write
`apply_string_lyrics_for_track`). -/
theorem c1_sidecar_mutual_exclusion (fs : FS) (s p : String) :
    (s ≠ "" → save_synced_lyrics fs s = ⟨none, some s⟩) ∧
    (s = "" → save_synced_lyrics fs s = ⟨fs.txt, none⟩) ∧
    ((save_synced_lyrics fs s).txt = none ∨ (save_synced_lyrics fs s).lrc = none) ∧
    ((save_plain_lyrics fs p).txt = none ∨ (save_plain_lyrics fs p).lrc = none) ∧
    ((save_instrumental fs).txt = none ∨ (save_instrumental fs).lrc = none) ∧
    ((apply_string_lyrics_for_track fs p s).txt = none ∨
      (apply_string_lyrics_for_track fs p s).lrc = none) := by
  unfold apply_string_lyrics_for_track save_synced_lyrics save_plain_lyrics save_instrumental
  by_cases hs : s = "" <;> by_cases hp : p = "" <;> simp [hs, hp]

/-- Witness for C1 (amended) at concrete inputs. -/
theorem c1_sidecar_mutual_exclusion_witness :
    save_synced_lyrics ⟨some "a", none⟩ "[00:01.00] x" = ⟨none, some "[00:01.00] x"⟩ ∧
    save_synced_lyrics ⟨some "a", some "b"⟩ "" = ⟨some "a", none⟩ :=
  ⟨(c1_sidecar_mutual_exclusion ⟨some "a", none⟩ "[00:01.00] x" "y").1 (by decide),
   (c1_sidecar_mutual_exclusion ⟨some "a", some "b"⟩ "" "y").2.1 rfl⟩

/-- C2: with duration tolerance ≤ 0, if the exact-fields lookup returns
`None`, resolution applies the `None` result, returns `(None, None)`, and
issues only the exact-tier call — neither the duration-fallback nor the
fuzzy-fallback search call. -/
theorem c2_tolerance_short_circuit (env : Env) (fs : FS) (duration_tolerance : ℚ)
    (fuzzy_search_enabled : Bool)
    (hexact : env.exactResult = .ok Response.None)
    (htol : duration_tolerance ≤ 0) :
    download_lyrics_for_track env fs duration_tolerance fuzzy_search_enabled =
      ([TierCall.exact], .ok (fs, Response.None, MatchSource.None)) := by
  simp [download_lyrics_for_track, hexact, htol, Response.isNone, apply_lyrics_for_track]

/-- Witness for C2 at a concrete environment with tolerance 0. -/
theorem c2_tolerance_short_circuit_witness :
    download_lyrics_for_track ⟨.ok Response.None, .ok Response.None, .ok Response.None⟩
        ⟨some "t", none⟩ 0 true =
      ([TierCall.exact], .ok (⟨some "t", none⟩, Response.None, MatchSource.None)) :=
  c2_tolerance_short_circuit _ _ _ _ rfl (le_refl 0)

/-- C6: a failing fuzzy-fallback search call does not propagate: whenever the
fuzzy tier was called and its result is an error, resolution returns
successfully with `(None, None)` (the file state untouched by the `None`
apply); an error in the exact tier instead propagates as the failure of the
whole resolution call. -/
theorem c6_fuzzy_error_degrades (env : Env) (fs : FS) (duration_tolerance : ℚ)
    (fuzzy_search_enabled : Bool) (e : Nat) :
    (TierCall.fuzzySearch ∈ (download_lyrics_for_track env fs duration_tolerance
        fuzzy_search_enabled).1 →
      env.fuzzyResult = .error e →
      (download_lyrics_for_track env fs duration_tolerance fuzzy_search_enabled).2 =
        .ok (fs, Response.None, MatchSource.None)) ∧
    (env.exactResult = .error e →
      (download_lyrics_for_track env fs duration_tolerance fuzzy_search_enabled).2 =
        .error e) := by
  constructor
  · intro hmem hfu
    unfold download_lyrics_for_track at hmem ⊢
    cases hex : env.exactResult with
    | error e2 =>
      rw [hex] at hmem
      simp at hmem
    | ok lyrics =>
      rw [hex] at hmem
      by_cases hN : lyrics.isNone = true
      · simp only [hN, Bool.not_true, Bool.false_eq_true, if_false] at hmem ⊢
        by_cases htol : duration_tolerance ≤ 0
        · simp only [htol, if_true] at hmem
          simp at hmem
        · simp only [htol, if_false] at hmem ⊢
          cases hdur : env.durationResult with
          | ok fb =>
            rw [hdur] at hmem
            by_cases hfb : fb.isNone = true
            · simp only [hfb, Bool.not_true, Bool.false_eq_true, if_false] at hmem ⊢
              cases hfe : fuzzy_search_enabled with
              | false =>
                rw [hfe] at hmem
                simp [fuzzy_tier] at hmem
              | true =>
                simp [fuzzy_tier, hfu, apply_lyrics_for_track]
            · have hfb2 : fb.isNone = false := by simpa using hfb
              simp only [hfb2, Bool.not_false, if_true] at hmem
              simp at hmem
          | error e3 =>
            rw [hdur] at hmem
            cases hfe : fuzzy_search_enabled with
            | false =>
              rw [hfe] at hmem
              simp [fuzzy_tier] at hmem
            | true =>
              simp [fuzzy_tier, hfu, apply_lyrics_for_track]
      · have hN2 : lyrics.isNone = false := by simpa using hN
        simp only [hN2, Bool.not_false, if_true] at hmem
        simp at hmem
  · intro hex
    unfold download_lyrics_for_track
    rw [hex]

/-- Witness for C6 at a concrete environment whose fuzzy call fails. -/
theorem c6_fuzzy_error_degrades_witness :
    (download_lyrics_for_track ⟨.ok Response.None, .ok Response.None, .error 7⟩
        ⟨none, none⟩ 1 true).2 =
      .ok (⟨none, none⟩, Response.None, MatchSource.None) :=
  (c6_fuzzy_error_degrades ⟨.ok Response.None, .ok Response.None, .error 7⟩
      ⟨none, none⟩ 1 true 7).1 (by decide) rfl

/-- C9: applying the Instrumental lyrics result deletes both sidecars and
writes the `.lrc` file with exactly the literal marker `[au: instrumental]`,
returning the Instrumental result unchanged. -/
theorem c9_instrumental_write (fs : FS) :
    apply_lyrics_for_track fs Response.IsInstrumental =
      (⟨none, some "[au: instrumental]"⟩, Response.IsInstrumental) := rfl

/-- C10: whenever resolution returns successfully, the match source is `None`
iff the returned lyrics result is `None` (the apply step returns the result
it was given unchanged). -/
theorem c10_source_none_iff_result_none (env : Env) (fs : FS)
    (duration_tolerance : ℚ) (fuzzy_search_enabled : Bool)
    (fs2 : FS) (r : Response) (src : MatchSource)
    (h : (download_lyrics_for_track env fs duration_tolerance
        fuzzy_search_enabled).2 = .ok (fs2, r, src)) :
    (src = MatchSource.None ↔ r = Response.None) := by
  unfold download_lyrics_for_track at h
  cases hex : env.exactResult with
  | error e =>
    rw [hex] at h
    simp at h
  | ok lyrics =>
    rw [hex] at h
    by_cases hN : lyrics.isNone = true
    · simp only [hN, Bool.not_true, Bool.false_eq_true, if_false] at h
      by_cases htol : duration_tolerance ≤ 0
      · simp only [htol, if_true, apply_lyrics_snd, Except.ok.injEq, Prod.mk.injEq] at h
        obtain ⟨_, hr, hsrc⟩ := h
        rw [← hr, ← hsrc]
        simp
      · simp only [htol, if_false] at h
        cases hdur : env.durationResult with
        | ok fb =>
          rw [hdur] at h
          by_cases hfb : fb.isNone = true
          · simp only [hfb, Bool.not_true, Bool.false_eq_true, if_false] at h
            exact fuzzy_tier_none_iff env fs fuzzy_search_enabled h
          · have hfb2 : fb.isNone = false := by simpa using hfb
            simp only [hfb2, Bool.not_false, if_true, apply_lyrics_snd,
              Except.ok.injEq, Prod.mk.injEq] at h
            obtain ⟨_, hr, hsrc⟩ := h
            have hfbne : fb ≠ .None := fun he => by
              simp [Response.isNone_iff.mpr he] at hfb2
            rw [← hr, ← hsrc]
            constructor
            · intro hc; cases hc
            · intro hc; exact absurd hc hfbne
        | error e2 =>
          rw [hdur] at h
          exact fuzzy_tier_none_iff env fs fuzzy_search_enabled h
    · have hN2 : lyrics.isNone = false := by simpa using hN
      simp only [hN2, Bool.not_false, if_true, apply_lyrics_snd,
        Except.ok.injEq, Prod.mk.injEq] at h
      obtain ⟨_, hr, hsrc⟩ := h
      have hlne : lyrics ≠ .None := fun he => by
        simp [Response.isNone_iff.mpr he] at hN2
      rw [← hr, ← hsrc]
      constructor
      · intro hc; cases hc
      · intro hc; exact absurd hc hlne

/-- Witness for C10: a successful exact match is tagged `Exact` and is not
the `None` result, so the equivalence holds with both sides false. -/
theorem c10_source_none_iff_result_none_witness :
    (MatchSource.Exact = MatchSource.None ↔
      Response.SyncedLyrics "[00:01.00] x" "x" = Response.None) :=
  c10_source_none_iff_result_none
    ⟨.ok (Response.SyncedLyrics "[00:01.00] x" "x"), .ok Response.None, .ok Response.None⟩
    ⟨none, none⟩ 1 true ⟨none, some "[00:01.00] x"⟩
    (Response.SyncedLyrics "[00:01.00] x" "x") MatchSource.Exact rfl

/-- C3: candidate ranking returns the minimum of the duration-filtered
candidates under the lexicographic `(completeness score, duration distance)`
order — so among the filtered candidates the winner is no worse than any
other (a synced candidate beats any plain one regardless of distance, and
among equal scores the smaller distance wins), ties resolve to the
first-encountered candidate, and whenever a synced candidate survives the
filter the winner is synced. -/
theorem c3_pick_best_match_minimum (results : List SearchItem)
    (duration duration_tolerance : ℚ) (r : SearchItem)
    (h : pick_best_match results duration duration_tolerance = some r) :
    r ∈ results.filter (duration_filter duration duration_tolerance) ∧
    (∀ x ∈ results.filter (duration_filter duration duration_tolerance),
      keyLe duration r x) ∧
    (∃ l1 l2, results.filter (duration_filter duration duration_tolerance) =
        l1 ++ r :: l2 ∧ ∀ x ∈ l1, keyLt duration r x) ∧
    ((∃ x ∈ results.filter (duration_filter duration duration_tolerance),
        x.synced_lyrics.isSome) → r.synced_lyrics.isSome) := by
  have h2 : min_by (cmpItems duration)
      (results.filter (duration_filter duration duration_tolerance)) = some r := h
  obtain ⟨hmem, hmin, hdec⟩ := min_by_spec h2
  refine ⟨hmem, hmin, hdec, ?_⟩
  rintro ⟨x, hx, hsx⟩
  have hle := hmin x hx
  have hx0 : score x = 0 := score_eq_zero_of_synced hsx
  have hr0 : score r = 0 := by
    have hnn := score_nonneg r
    rcases hle with hlt | ⟨heq, _⟩
    · omega
    · omega
  exact synced_of_score_eq_zero hr0

/-- A synced-lyrics candidate two seconds off target. -/
def itemSynced : SearchItem :=
  ⟨1, none, none, none, some 12, false, none, some "[00:01.00] a"⟩

/-- A plain-lyrics candidate exactly on target. -/
def itemPlain : SearchItem :=
  ⟨2, none, none, none, some 10, false, some "a", none⟩

/-- Witness for C3: with the plain candidate listed first and closer in
duration, the synced candidate still wins. -/
theorem c3_pick_best_match_minimum_witness :
    itemSynced ∈ [itemPlain, itemSynced].filter (duration_filter 10 3) ∧
    (∀ x ∈ [itemPlain, itemSynced].filter (duration_filter 10 3),
      keyLe 10 itemSynced x) ∧
    (∃ l1 l2, [itemPlain, itemSynced].filter (duration_filter 10 3) =
        l1 ++ itemSynced :: l2 ∧ ∀ x ∈ l1, keyLt 10 itemSynced x) ∧
    ((∃ x ∈ [itemPlain, itemSynced].filter (duration_filter 10 3),
        x.synced_lyrics.isSome) → itemSynced.synced_lyrics.isSome) :=
  c3_pick_best_match_minimum [itemPlain, itemSynced] 10 3 itemSynced (by
    norm_num [pick_best_match, min_by, duration_filter, cmpItems, icmp, qcmp, score, distOr,
      itemPlain, itemSynced]
    decide)

/-- C4: candidate ranking never selects a candidate that lacks a duration or
whose duration differs from the target by more than the tolerance. -/
theorem c4_pick_respects_tolerance (results : List SearchItem)
    (duration duration_tolerance : ℚ) (r : SearchItem)
    (h : pick_best_match results duration duration_tolerance = some r) :
    ∃ d, r.duration = some d ∧ |d - duration| ≤ duration_tolerance := by
  have h2 : min_by (cmpItems duration)
      (results.filter (duration_filter duration duration_tolerance)) = some r := h
  obtain ⟨hmem, -, -⟩ := min_by_spec h2
  have hf : duration_filter duration duration_tolerance r = true :=
    (List.mem_filter.mp hmem).2
  unfold duration_filter at hf
  cases hd : r.duration with
  | none =>
    rw [hd] at hf
    simp at hf
  | some d =>
    rw [hd] at hf
    simp only [Option.map_some', Option.getD_some, decide_eq_true_eq] at hf
    exact ⟨d, rfl, hf⟩

/-- Witness for C4: the selected candidate's duration 12 is within tolerance
3 of the target 10. -/
theorem c4_pick_respects_tolerance_witness :
    ∃ d, itemSynced.duration = some d ∧ |d - 10| ≤ (3 : ℚ) :=
  c4_pick_respects_tolerance [itemPlain, itemSynced] 10 3 itemSynced (by
    norm_num [pick_best_match, min_by, duration_filter, cmpItems, icmp, qcmp, score, distOr,
      itemPlain, itemSynced]
    decide)

theorem split_tokens_nonempty {s : List Char} (h : normalize_text s ≠ []) :
    (split_whitespace (normalize_text s)).toFinset.Nonempty := by
  have hsp := split_whitespace_normalize_ne_nil h
  cases hsp2 : split_whitespace (normalize_text s) with
  | nil => exact absurd hsp2 hsp
  | cons w ws =>
    exact ⟨w, List.mem_toFinset.mpr (List.mem_cons_self w ws)⟩

theorem text_similarity_nonneg_le_one (a b : List Char) :
    0 ≤ text_similarity a b ∧ text_similarity a b ≤ 1 := by
  unfold text_similarity
  by_cases ha : (normalize_text a).isEmpty <;> by_cases hb : (normalize_text b).isEmpty <;>
    simp [ha, hb]
  constructor
  · split_ifs with hu
    · exact le_refl 0
    · positivity
  · split_ifs with hu
    · norm_num
    · have hpos : 0 < (((split_whitespace (normalize_text a)).toFinset ∪
          (split_whitespace (normalize_text b)).toFinset).card : ℚ) := by
        exact_mod_cast Finset.card_pos.mpr (Finset.nonempty_iff_ne_empty.mpr hu)
      rw [div_le_one hpos]
      exact_mod_cast Finset.card_le_card Finset.inter_subset_union

theorem text_similarity_comm (a b : List Char) :
    text_similarity a b = text_similarity b a := by
  unfold text_similarity
  by_cases ha : (normalize_text a).isEmpty <;> by_cases hb : (normalize_text b).isEmpty <;>
    simp [ha, hb, Finset.inter_comm, Finset.union_comm]

theorem text_similarity_self (a : List Char) : text_similarity a a = 1 := by
  unfold text_similarity
  by_cases ha : (normalize_text a).isEmpty
  · simp [ha]
  · have hne : normalize_text a ≠ [] := by simpa [List.isEmpty_iff] using ha
    obtain ⟨w, hw⟩ := split_tokens_nonempty hne
    have hcard : (split_whitespace (normalize_text a)).toFinset.card ≠ 0 :=
      Finset.card_ne_zero_of_mem hw
    simp only [ha, Bool.false_and, Bool.false_eq_true, if_false, Bool.false_or,
      Finset.inter_self, Finset.union_self, hcard]
    exact div_self (by exact_mod_cast hcard)

/-- C5: text similarity lies in `[0, 1]`, is symmetric, is `1` on equal
non-empty inputs, handles the empty-after-normalization cases as specified
(`1` when both normalize to empty, `0` when exactly one does), and on two
inputs with non-empty normalizations equals the Jaccard index of their
whitespace-token sets. -/
theorem c5_text_similarity_props (a b : List Char) :
    0 ≤ text_similarity a b ∧
    text_similarity a b ≤ 1 ∧
    text_similarity a b = text_similarity b a ∧
    (a ≠ [] → text_similarity a a = 1) ∧
    (normalize_text a = [] → normalize_text b = [] → text_similarity a b = 1) ∧
    (normalize_text a = [] → normalize_text b ≠ [] → text_similarity a b = 0) ∧
    (normalize_text a ≠ [] → normalize_text b = [] → text_similarity a b = 0) ∧
    (normalize_text a ≠ [] → normalize_text b ≠ [] →
      text_similarity a b =
        (((split_whitespace (normalize_text a)).toFinset ∩
          (split_whitespace (normalize_text b)).toFinset).card : ℚ) /
        (((split_whitespace (normalize_text a)).toFinset ∪
          (split_whitespace (normalize_text b)).toFinset).card : ℚ)) := by
  refine ⟨(text_similarity_nonneg_le_one a b).1, (text_similarity_nonneg_le_one a b).2,
    text_similarity_comm a b, fun _ => text_similarity_self a, ?_, ?_, ?_, ?_⟩
  · intro ha hb
    unfold text_similarity
    simp [ha, hb]
  · intro ha hb
    unfold text_similarity
    simp [ha, hb, List.isEmpty_iff]
  · intro ha hb
    unfold text_similarity
    simp [ha, hb, List.isEmpty_iff]
  · intro ha hb
    obtain ⟨w, hw⟩ := split_tokens_nonempty ha
    have hu : ((split_whitespace (normalize_text a)).toFinset ∪
        (split_whitespace (normalize_text b)).toFinset).card ≠ 0 :=
      Finset.card_ne_zero_of_mem (Finset.mem_union_left _ hw)
    unfold text_similarity
    simp [ha, hb, List.isEmpty_iff, hu]

/-- Witness for C5: a concrete non-empty input has self-similarity 1. -/
theorem c5_text_similarity_props_witness :
    text_similarity ['h', 'i'] ['h', 'i'] = 1 :=
  (c5_text_similarity_props ['h', 'i'] ['h', 'i']).2.2.2.1 (by decide)

/-- C7: the resilient GET layer makes at most `MAX_RETRIES = 3` send
attempts, its backoff delays are an initial segment of `[1000, 2000]` ms
(linearly increasing), a non-transient error at any attempt is returned
immediately without a further attempt or sleep, transient errors are
retried, and when all three attempts fail transiently the last error is
propagated after sleeping 1000 then 2000 ms. -/
theorem c7_get_with_retry_policy (attempts : Nat → Attempt) :
    (get_with_retry attempts).attemptsMade ≤ 3 ∧
    (∃ k, (get_with_retry attempts).sleeps = List.take k [1000, 2000]) ∧
    (∀ r, attempts 0 = .success r →
      get_with_retry attempts = ⟨.ok r, 1, []⟩) ∧
    (∀ e, attempts 0 = .failure false e →
      get_with_retry attempts = ⟨.error e, 1, []⟩) ∧
    (∀ e0 r, attempts 0 = .failure true e0 → attempts 1 = .success r →
      get_with_retry attempts = ⟨.ok r, 2, [1000]⟩) ∧
    (∀ e0 e, attempts 0 = .failure true e0 → attempts 1 = .failure false e →
      get_with_retry attempts = ⟨.error e, 2, [1000]⟩) ∧
    (∀ e0 e1 r, attempts 0 = .failure true e0 → attempts 1 = .failure true e1 →
      attempts 2 = .success r →
      get_with_retry attempts = ⟨.ok r, 3, [1000, 2000]⟩) ∧
    (∀ e0 e1 e, attempts 0 = .failure true e0 → attempts 1 = .failure true e1 →
      attempts 2 = .failure false e →
      get_with_retry attempts = ⟨.error e, 3, [1000, 2000]⟩) ∧
    (∀ e0 e1 e2, attempts 0 = .failure true e0 → attempts 1 = .failure true e1 →
      attempts 2 = .failure true e2 →
      get_with_retry attempts = ⟨.error e2, 3, [1000, 2000]⟩) := by
  refine ⟨?_, ?_, ?_, ?_, ?_, ?_, ?_, ?_, ?_⟩
  · rcases h0 : attempts 0 with r0 | ⟨t0, e0⟩
    · simp [get_with_retry, runRetry, MAX_RETRIES, h0]
    · cases t0
      · simp [get_with_retry, runRetry, MAX_RETRIES, h0]
      · rcases h1 : attempts 1 with r1 | ⟨t1, e1⟩
        · simp [get_with_retry, runRetry, MAX_RETRIES, RETRY_DELAY_MS, h0, h1]
        · cases t1
          · simp [get_with_retry, runRetry, MAX_RETRIES, RETRY_DELAY_MS, h0, h1]
          · rcases h2 : attempts 2 with r2 | ⟨t2, e2⟩
            · simp [get_with_retry, runRetry, MAX_RETRIES, RETRY_DELAY_MS, h0, h1, h2]
            · cases t2 <;>
                simp [get_with_retry, runRetry, MAX_RETRIES, RETRY_DELAY_MS, h0, h1, h2]
  · rcases h0 : attempts 0 with r0 | ⟨t0, e0⟩
    · exact ⟨0, by simp [get_with_retry, runRetry, MAX_RETRIES, h0]⟩
    · cases t0
      · exact ⟨0, by simp [get_with_retry, runRetry, MAX_RETRIES, h0]⟩
      · rcases h1 : attempts 1 with r1 | ⟨t1, e1⟩
        · exact ⟨1, by simp [get_with_retry, runRetry, MAX_RETRIES, RETRY_DELAY_MS, h0, h1]⟩
        · cases t1
          · exact ⟨1, by
              simp [get_with_retry, runRetry, MAX_RETRIES, RETRY_DELAY_MS, h0, h1]⟩
          · exact ⟨2, by
              rcases h2 : attempts 2 with r2 | ⟨t2, e2⟩
              · simp [get_with_retry, runRetry, MAX_RETRIES, RETRY_DELAY_MS, h0, h1, h2]
              · cases t2 <;>
                  simp [get_with_retry, runRetry, MAX_RETRIES, RETRY_DELAY_MS, h0, h1, h2]⟩
  · intro r h0
    simp [get_with_retry, runRetry, MAX_RETRIES, h0]
  · intro e h0
    simp [get_with_retry, runRetry, MAX_RETRIES, h0]
  · intro e0 r h0 h1
    simp [get_with_retry, runRetry, MAX_RETRIES, RETRY_DELAY_MS, h0, h1]
  · intro e0 e h0 h1
    simp [get_with_retry, runRetry, MAX_RETRIES, RETRY_DELAY_MS, h0, h1]
  · intro e0 e1 r h0 h1 h2
    simp [get_with_retry, runRetry, MAX_RETRIES, RETRY_DELAY_MS, h0, h1, h2]
  · intro e0 e1 e h0 h1 h2
    simp [get_with_retry, runRetry, MAX_RETRIES, RETRY_DELAY_MS, h0, h1, h2]
  · intro e0 e1 e2 h0 h1 h2
    simp [get_with_retry, runRetry, MAX_RETRIES, RETRY_DELAY_MS, h0, h1, h2]

/-- Witness for C7: an all-transient run returns the last error after the
two backoff sleeps. -/
theorem c7_get_with_retry_policy_witness :
    get_with_retry (fun i => Attempt.failure true (10 + i)) =
      ⟨.error 12, 3, [1000, 2000]⟩ :=
  (c7_get_with_retry_policy (fun i => Attempt.failure true (10 + i))).2.2.2.2.2.2.2.2
    10 11 12 rfl rfl rfl

/-- C8: for get-by-id, HTTP 404 yields the "not found" outcome rather than a
remote-rejection error: the normalizing `request` returns the `None` lyrics
result on 404, while the raw `request_raw` reports a named `NotFound` error
(status code 404) both on HTTP 404 and on a 200 body with no synced lyrics,
no plain lyrics and `instrumental = false`; statuses 400, 503 and 500
instead propagate the parsed structured error body. -/
theorem c8_get_by_id_status_mapping (rawBody : Except Unit RawResponse)
    (errBody : Except Unit ResponseError) (e : ResponseError) :
    GetById.request_raw 404 rawBody errBody =
      .respErr ⟨some 404, "NotFound", "There is no lyrics for this track"⟩ ∧
    GetById.request 404 rawBody errBody = .ok Response.None ∧
    GetById.request_raw 200 (.ok ⟨none, none, false⟩) errBody =
      .respErr ⟨some 404, "NotFound", "There is no lyrics for this track"⟩ ∧
    (errBody = .ok e →
      GetById.request_raw 400 rawBody errBody = .respErr e ∧
      GetById.request_raw 503 rawBody errBody = .respErr e ∧
      GetById.request_raw 500 rawBody errBody = .respErr e ∧
      GetById.request 400 rawBody errBody = .respErr e ∧
      GetById.request 503 rawBody errBody = .respErr e ∧
      GetById.request 500 rawBody errBody = .respErr e) := by
  refine ⟨?_, ?_, ?_, ?_⟩
  · simp [GetById.request_raw]
  · simp [GetById.request]
  · simp [GetById.request_raw]
  · rintro rfl
    refine ⟨?_, ?_, ?_, ?_, ?_, ?_⟩ <;> simp [GetById.request_raw, GetById.request]

/-- Witness for C8 at a concrete parsed error body. -/
theorem c8_get_by_id_status_mapping_witness :
    GetById.request 404 (.error ()) (.ok ⟨some 400, "BadRequest", "m"⟩) =
      .ok Response.None ∧
    GetById.request_raw 400 (.error ()) (.ok ⟨some 400, "BadRequest", "m"⟩) =
      .respErr ⟨some 400, "BadRequest", "m"⟩ :=
  ⟨(c8_get_by_id_status_mapping (.error ()) (.ok ⟨some 400, "BadRequest", "m"⟩)
      ⟨some 400, "BadRequest", "m"⟩).2.1,
   ((c8_get_by_id_status_mapping (.error ()) (.ok ⟨some 400, "BadRequest", "m"⟩)
      ⟨some 400, "BadRequest", "m"⟩).2.2.2 rfl).1⟩
